import Mathlib

/-!
Shallow embedding of the translation-catalog logic of `src/licenses/models.py`
(the `LegalCode` model of the cc-licenses repository), together with proofs of
the documented properties of `LegalCode.get_pofile_with_english_msgids` (the
catalog reconciler) and of `LegalCode.branch_name`.

Catalogs (`polib.POFile`) are modelled as ordered lists of entries, each entry
carrying a `msgid` (the key) and a `msgstr` (the text), exactly the two fields
the reconciler reads and writes.  The Python `dict` built by the comprehension
`{entry.msgid: entry.msgstr for entry in english_pofile}` is modelled as an
insertion-ordered association list with overwrite-on-duplicate semantics, which
is the observable behaviour of a Python `dict` built by successive insertion.
The `raise ValueError(...)` path is modelled as an `Except` error carrying the
missing key (the key is interpolated into the `ValueError` message by the
source, so the error identifies the key).
-/

namespace CcLicenses

/-- One entry of a `polib` catalog: `msgid` is the key, `msgstr` the text. -/
structure POEntry where
  msgid : String
  msgstr : String
deriving DecidableEq, Repr

/-- Modelled from the spec: the distinguished default/base language code.  The
constant is imported in the source from the `i18n` package, which is not part
of the source tree; the spec only calls it "the default/base language".  Its
concrete value is irrelevant to every claim (only equality with itself is
used). -/
def DEFAULT_LANGUAGE_CODE : String := "en"

/-- The default-language loop of `get_pofile_with_english_msgids`
(models.py lines 221-223): for each entry of the (deep-copied) pofile, in
order, set `msgid := msgstr` and then `msgstr := ""`. -/
def defaultPass : List POEntry → List POEntry
  | [] => []
  | e :: rest => { msgid := e.msgstr, msgstr := "" } :: defaultPass rest

/-- One Python `dict` insertion `m[k] = v`: if the key is present its value is
overwritten in place (insertion order kept), otherwise the pair is appended. -/
def dictInsert (m : List (String × String)) (k v : String) :
    List (String × String) :=
  if m.any (fun p => p.1 = k) then
    m.map (fun p => if p.1 = k then (k, v) else p)
  else
    m ++ [(k, v)]

/-- Python `dict` lookup `m[k]` / `k in m`: the value of the unique binding of
`k`, found as the first pair whose key is `k`. -/
def dictLookup (m : List (String × String)) (k : String) : Option String :=
  (m.find? (fun p => p.1 = k)).map (fun p => p.2)

/-- The dict comprehension of models.py lines 227-229:
`{entry.msgid: entry.msgstr for entry in english_pofile}`, built by inserting
the entries of the English pofile in order (a later duplicate key overwrites an
earlier one, as in a Python dict). -/
def internal_key_to_english_message (english_pofile : List POEntry) :
    List (String × String) :=
  english_pofile.foldl (fun m e => dictInsert m e.msgid e.msgstr) []

/-- The error raised by the reconciler.  The source raises
`ValueError(f"Our English pofile has no message for the key {entry.msgid}, ...")`;
the spec names this condition `MissingDefaultTranslation`.  The constructor
carries the missing key, as the interpolated message does. -/
inductive ReconcileError where
  | missingDefaultTranslation (key : String)
deriving DecidableEq, Repr

/-- The non-default-language loop of `get_pofile_with_english_msgids`
(models.py lines 230-236): walk the (deep-copied) pofile in order; on the first
entry whose `msgid` is not a key of the dict, raise; otherwise replace `msgid`
by the looked-up English message, leaving `msgstr` untouched. -/
def translatePass (m : List (String × String)) :
    List POEntry → Except ReconcileError (List POEntry)
  | [] => .ok []
  | e :: rest =>
    match dictLookup m e.msgid with
    | none => .error (.missingDefaultTranslation e.msgid)
    | some t => (translatePass m rest).map (fun out => { e with msgid := t } :: out)

/-- The method `LegalCode.get_pofile_with_english_msgids` (models.py lines 212-237), as a
function of the data it reads: the legal code's `language_code`, its own pofile
(`self.get_pofile()`, deep-copied on line 219) and the English pofile
(`self.get_english_pofile()`, used only in the non-default branch). -/
def get_pofile_with_english_msgids (language_code : String)
    (pofile english_pofile : List POEntry) :
    Except ReconcileError (List POEntry) :=
  let new_pofile := pofile
  if language_code = DEFAULT_LANGUAGE_CODE then
    .ok (defaultPass new_pofile)
  else
    translatePass (internal_key_to_english_message english_pofile) new_pofile

/-- The mutable state the method can reach: the stored pofile of the legal code
itself and the stored English pofile.  `deepcopy` on line 219 is what makes the
in-place entry mutations of the loops act on a copy and not on this state. -/
structure CatalogStore where
  pofile : List POEntry
  english_pofile : List POEntry
deriving DecidableEq, Repr

/-- The reconciler `get_pofile_with_english_msgids` as a state-passing procedure: it returns
its result together with the final contents of both stored catalogs.  The
`deepcopy(self.get_pofile())` of line 219 is the value copy `st.pofile`; every
mutation of the loops targets that copy, so the store passes through. -/
def reconcileProc (language_code : String) (st : CatalogStore) :
    Except ReconcileError (List POEntry) × CatalogStore :=
  (get_pofile_with_english_msgids language_code st.pofile st.english_pofile, st)

/-! ### Helper lemmas about the Python-dict model and the two loops -/

theorem dictLookup_cons (p : String × String) (m : List (String × String)) (k : String) :
    dictLookup (p :: m) k = if p.1 = k then some p.2 else dictLookup m k := by
  by_cases h : p.1 = k <;> simp [dictLookup, List.find?_cons, h]

theorem dictLookup_map_overwrite (m : List (String × String)) (k v k' : String) :
    dictLookup (m.map (fun p => if p.1 = k then (k, v) else p)) k' =
      if k' = k then (if m.any (fun p => p.1 = k) then some v else none)
      else dictLookup m k' := by
  induction m with
  | nil => by_cases h : k' = k <;> simp [dictLookup, h]
  | cons p t ih =>
    by_cases hp : p.1 = k
    · by_cases hk : k' = k
      · subst hk; simp [dictLookup_cons, hp, List.any_cons]
      · have hkk : ¬ k = k' := fun h => hk h.symm
        simp [dictLookup_cons, hp, hk, hkk, ih]
    · by_cases hk : k' = k
      · subst hk
        have hd : (fun q : String × String => if q.1 = k' then (k', v) else q) p = p := by
          simp [hp]
        simp only [List.map_cons, hd, dictLookup_cons, if_neg hp, ih, List.any_cons]
        simp only [decide_eq_false hp, Bool.false_or]
      · simp [dictLookup_cons, hp, hk, ih]

theorem dictLookup_append_single (m : List (String × String)) (k v k' : String) :
    dictLookup (m ++ [(k, v)]) k' =
      match dictLookup m k' with
      | some w => some w
      | none => if k' = k then some v else none := by
  induction m with
  | nil =>
    by_cases h : k = k'
    · simp [dictLookup, h]
    · have h' : ¬ k' = k := fun hh => h hh.symm
      simp [dictLookup, h, h']
  | cons p t ih =>
    by_cases hp : p.1 = k' <;> simp [dictLookup_cons, hp, ih]

theorem dictLookup_eq_none_of_not_any (m : List (String × String)) (k : String)
    (h : m.any (fun p => p.1 = k) = false) : dictLookup m k = none := by
  simp only [dictLookup, Option.map_eq_none', List.find?_eq_none]
  intro x hx
  simp only [List.any_eq_false] at h
  simpa using h x hx

theorem dictLookup_dictInsert (m : List (String × String)) (k v k' : String) :
    dictLookup (dictInsert m k v) k' =
      if k' = k then some v else dictLookup m k' := by
  by_cases ha : m.any (fun p => p.1 = k)
  · rw [dictInsert, if_pos ha, dictLookup_map_overwrite]
    by_cases hk : k' = k <;> simp [hk, ha]
  · have ha' : m.any (fun p => p.1 = k) = false := by
      revert ha; cases m.any (fun p => p.1 = k) <;> simp
    have hn := dictLookup_eq_none_of_not_any m k ha'
    rw [dictInsert, if_neg (by simp [ha']), dictLookup_append_single]
    by_cases hk : k' = k
    · subst hk; simp [hn]
    · cases hl : dictLookup m k' <;> simp [hk]

theorem dictLookup_internal_key (d : List POEntry) (k : String) :
    dictLookup (internal_key_to_english_message d) k =
      (d.reverse.find? (fun e => e.msgid = k)).map (fun e => e.msgstr) := by
  induction d using List.reverseRecOn with
  | nil => rfl
  | append_singleton d e ih =>
    rw [internal_key_to_english_message, List.foldl_append] at *
    simp only [List.foldl_cons, List.foldl_nil]
    rw [dictLookup_dictInsert, List.reverse_append]
    simp only [List.reverse_cons, List.reverse_nil, List.nil_append,
      List.cons_append, List.find?_cons]
    by_cases h : e.msgid = k
    · simp [h]
    · have h' : ¬ k = e.msgid := fun hh => h hh.symm
      simp only [h', if_false, decide_eq_false h, ih]

theorem dictLookup_internal_key_isSome_iff (d : List POEntry) (k : String) :
    (dictLookup (internal_key_to_english_message d) k).isSome ↔
      ∃ e ∈ d, e.msgid = k := by
  rw [dictLookup_internal_key]
  rcases hf : d.reverse.find? (fun e => e.msgid = k) with _ | e
  · rw [hf]
    rw [List.find?_eq_none] at hf
    simp only [Option.map_none', Option.isSome_none]
    constructor
    · intro h; cases h
    · rintro ⟨e, he, hk⟩
      exact absurd (by simpa using hk) (by simpa using hf e (List.mem_reverse.mpr he))
  · have hm := List.mem_reverse.mp (List.mem_of_find?_eq_some hf)
    have hk := List.find?_some hf
    rw [hf]
    simp only [Option.map_some', Option.isSome_some, true_iff]
    exact ⟨e, hm, by simpa using hk⟩

theorem dictLookup_internal_key_eq_none_iff (d : List POEntry) (k : String) :
    dictLookup (internal_key_to_english_message d) k = none ↔
      ∀ e ∈ d, e.msgid ≠ k := by
  rw [← Option.not_isSome_iff_eq_none, dictLookup_internal_key_isSome_iff]
  push_neg
  rfl

theorem translatePass_ok_of_all_found (m : List (String × String))
    (c : List POEntry) (h : ∀ e ∈ c, (dictLookup m e.msgid).isSome) :
    ∃ out, translatePass m c = .ok out := by
  induction c with
  | nil => exact ⟨[], rfl⟩
  | cons e rest ih =>
    rcases Option.isSome_iff_exists.mp (h e (by simp)) with ⟨t, ht⟩
    rcases ih (fun x hx => h x (by simp [hx])) with ⟨out, hout⟩
    exact ⟨{ e with msgid := t } :: out, by simp [translatePass, ht, hout, Except.map]⟩

theorem translatePass_ok_spec (m : List (String × String)) (c out : List POEntry)
    (h : translatePass m c = .ok out) :
    out.length = c.length ∧
      ∀ i (hi : i < c.length) (hio : i < out.length),
        dictLookup m (c.get ⟨i, hi⟩).msgid = some ((out.get ⟨i, hio⟩).msgid) ∧
          (out.get ⟨i, hio⟩).msgstr = (c.get ⟨i, hi⟩).msgstr := by
  induction c generalizing out with
  | nil =>
    cases h
    exact ⟨rfl, by intro i hi; cases hi⟩
  | cons e rest ih =>
    rw [translatePass] at h
    rcases hl : dictLookup m e.msgid with _ | t
    · rw [hl] at h; cases h
    · rw [hl] at h
      rcases hrest : translatePass m rest with err | out'
      · rw [hrest] at h; cases h
      · rw [hrest] at h
        have hout : out = { e with msgid := t } :: out' := by
          cases h; rfl
        subst hout
        rcases ih out' hrest with ⟨hlen, hidx⟩
        refine ⟨by simp [hlen], ?_⟩
        intro i hi hio
        cases i with
        | zero => exact ⟨by simpa using hl, rfl⟩
        | succ j =>
          exact hidx j (by simpa using hi) (by simpa using hio)

theorem translatePass_error_of_find (m : List (String × String))
    (c : List POEntry) (e : POEntry)
    (h : c.find? (fun x => (dictLookup m x.msgid).isNone) = some e) :
    translatePass m c = .error (.missingDefaultTranslation e.msgid) := by
  induction c with
  | nil => cases h
  | cons x rest ih =>
    rw [List.find?_cons] at h
    rcases hl : dictLookup m x.msgid with _ | t
    · rw [hl] at h
      simp only [Option.isNone_none] at h
      cases h
      rw [translatePass, hl]
    · rw [hl] at h
      simp only [Option.isNone_some] at h
      rw [translatePass, hl, ih h]
      rfl

theorem translatePass_ok_all_found (m : List (String × String))
    (c out : List POEntry) (h : translatePass m c = .ok out) :
    ∀ e ∈ c, (dictLookup m e.msgid).isSome := by
  induction c generalizing out with
  | nil => intro e he; cases he
  | cons x rest ih =>
    intro e he
    rw [translatePass] at h
    rcases hl : dictLookup m x.msgid with _ | t
    · rw [hl] at h; cases h
    · rw [hl] at h
      rcases hrest : translatePass m rest with err | out'
      · rw [hrest] at h; cases h
      · rcases List.mem_cons.mp he with rfl | hmem
        · simp [hl]
        · exact ih out' hrest e hmem

theorem translatePass_error_spec (m : List (String × String))
    (c : List POEntry) (k : String)
    (h : translatePass m c = .error (.missingDefaultTranslation k)) :
    ∃ e ∈ c, e.msgid = k ∧ dictLookup m e.msgid = none := by
  induction c with
  | nil => cases h
  | cons x rest ih =>
    rw [translatePass] at h
    rcases hl : dictLookup m x.msgid with _ | t
    · rw [hl] at h
      cases h
      exact ⟨x, by simp, rfl, hl⟩
    · rw [hl] at h
      rcases hrest : translatePass m rest with err | out'
      · rw [hrest] at h
        cases h
        rcases ih hrest with ⟨e, he, hk, hn⟩
        exact ⟨e, by simp [he], hk, hn⟩
      · rw [hrest] at h; cases h

theorem defaultPass_length (c : List POEntry) :
    (defaultPass c).length = c.length := by
  induction c with
  | nil => rfl
  | cons e rest ih => simp [defaultPass, ih]

theorem defaultPass_get (c : List POEntry) (i : Nat) (hi : i < c.length)
    (hio : i < (defaultPass c).length) :
    ((defaultPass c).get ⟨i, hio⟩).msgid = (c.get ⟨i, hi⟩).msgstr ∧
      ((defaultPass c).get ⟨i, hio⟩).msgstr = "" := by
  induction c generalizing i with
  | nil => cases hi
  | cons e rest ih =>
    cases i with
    | zero => exact ⟨rfl, rfl⟩
    | succ j => exact ih j (by simpa using hi) (by simpa [defaultPass] using hio)

/-! ### Claim theorems about the catalog reconciler -/

/-- C1: reconciling a catalog as the default language
(`get_pofile_with_english_msgids` with `language_code` equal to the default
language code) succeeds, and in the output every entry has its key equal to the
old entry's text and its text empty. -/
theorem default_language_identity (language_code : String)
    (pofile english_pofile : List POEntry)
    (h : language_code = DEFAULT_LANGUAGE_CODE) :
    ∃ out, get_pofile_with_english_msgids language_code pofile english_pofile =
        .ok out ∧
      out.length = pofile.length ∧
      ∀ i (hi : i < pofile.length) (hio : i < out.length),
        (out.get ⟨i, hio⟩).msgid = (pofile.get ⟨i, hi⟩).msgstr ∧
          (out.get ⟨i, hio⟩).msgstr = "" := by
  refine ⟨defaultPass pofile, ?_, defaultPass_length pofile, ?_⟩
  · simp [get_pofile_with_english_msgids, h]
  · intro i hi hio
    exact defaultPass_get pofile i hi hio

theorem default_language_identity_witness :
    ∃ out, get_pofile_with_english_msgids DEFAULT_LANGUAGE_CODE
        [⟨"s1a", "Adapted Material"⟩] [] = .ok out ∧
      out.length = 1 ∧
      ∀ i (hi : i < ([⟨"s1a", "Adapted Material"⟩] : List POEntry).length)
        (hio : i < out.length),
        (out.get ⟨i, hio⟩).msgid =
            (([⟨"s1a", "Adapted Material"⟩] : List POEntry).get ⟨i, hi⟩).msgstr ∧
          (out.get ⟨i, hio⟩).msgstr = "" :=
  default_language_identity DEFAULT_LANGUAGE_CODE [⟨"s1a", "Adapted Material"⟩] [] rfl

/-- C2: for a non-default-language catalog every one of whose keys occurs in
the default-language catalog, reconciliation succeeds and, entrywise in order,
the new key is the default catalog's text for the old key (the value of the
key-to-text dict the code builds) and the new text is the old text,
unchanged. -/
theorem substitution_correctness (language_code : String)
    (pofile english_pofile : List POEntry)
    (hlang : language_code ≠ DEFAULT_LANGUAGE_CODE)
    (hcov : ∀ e ∈ pofile, ∃ de ∈ english_pofile, de.msgid = e.msgid) :
    ∃ out, get_pofile_with_english_msgids language_code pofile english_pofile =
        .ok out ∧
      out.length = pofile.length ∧
      ∀ i (hi : i < pofile.length) (hio : i < out.length),
        dictLookup (internal_key_to_english_message english_pofile)
            (pofile.get ⟨i, hi⟩).msgid = some ((out.get ⟨i, hio⟩).msgid) ∧
          (out.get ⟨i, hio⟩).msgstr = (pofile.get ⟨i, hi⟩).msgstr := by
  have hall : ∀ e ∈ pofile,
      (dictLookup (internal_key_to_english_message english_pofile) e.msgid).isSome := by
    intro e he
    rcases hcov e he with ⟨de, hde, hk⟩
    exact (dictLookup_internal_key_isSome_iff _ _).mpr ⟨de, hde, hk⟩
  rcases translatePass_ok_of_all_found _ pofile hall with ⟨out, hout⟩
  refine ⟨out, ?_, (translatePass_ok_spec _ _ _ hout).1, fun i hi hio =>
    (translatePass_ok_spec _ _ _ hout).2 i hi hio⟩
  simp [get_pofile_with_english_msgids, hlang, hout]

theorem substitution_correctness_witness :
    ∃ out, get_pofile_with_english_msgids "fr"
        [⟨"s1a", "Matériel Adapté"⟩] [⟨"s1a", "Adapted Material"⟩] = .ok out ∧
      out.length = 1 ∧
      ∀ i (hi : i < ([⟨"s1a", "Matériel Adapté"⟩] : List POEntry).length)
        (hio : i < out.length),
        dictLookup (internal_key_to_english_message [⟨"s1a", "Adapted Material"⟩])
            (([⟨"s1a", "Matériel Adapté"⟩] : List POEntry).get ⟨i, hi⟩).msgid =
            some ((out.get ⟨i, hio⟩).msgid) ∧
          (out.get ⟨i, hio⟩).msgstr =
            (([⟨"s1a", "Matériel Adapté"⟩] : List POEntry).get ⟨i, hi⟩).msgstr :=
  substitution_correctness "fr" [⟨"s1a", "Matériel Adapté"⟩]
    [⟨"s1a", "Adapted Material"⟩] (by decide)
    (by intro e he; exact ⟨⟨"s1a", "Adapted Material"⟩, by simp,
      by simp at he; simp [he]⟩)

/-- C3: for a non-default-language catalog containing a key absent from the
default-language catalog, reconciliation fails with a
`missingDefaultTranslation` error whose payload is such a missing key (the
source interpolates the key into the `ValueError` message); no entry is
silently skipped. -/
theorem missing_key_failure (language_code : String)
    (pofile english_pofile : List POEntry)
    (hlang : language_code ≠ DEFAULT_LANGUAGE_CODE)
    (hmiss : ∃ e ∈ pofile, ∀ de ∈ english_pofile, de.msgid ≠ e.msgid) :
    ∃ k, get_pofile_with_english_msgids language_code pofile english_pofile =
        .error (.missingDefaultTranslation k) ∧
      (∃ e ∈ pofile, e.msgid = k) ∧ ∀ de ∈ english_pofile, de.msgid ≠ k := by
  have hres : get_pofile_with_english_msgids language_code pofile english_pofile =
      translatePass (internal_key_to_english_message english_pofile) pofile := by
    simp [get_pofile_with_english_msgids, hlang]
  rcases htr : translatePass (internal_key_to_english_message english_pofile) pofile
    with err | out
  · cases err with
    | missingDefaultTranslation k =>
      rcases translatePass_error_spec _ _ _ htr with ⟨e, he, hk, hn⟩
      refine ⟨k, by rw [hres, htr], ⟨e, he, hk⟩, ?_⟩
      rw [← hk]
      exact (dictLookup_internal_key_eq_none_iff _ _).mp hn
  · exfalso
    rcases hmiss with ⟨e, he, hnone⟩
    have := translatePass_ok_all_found _ _ _ htr e he
    rw [Option.isSome_iff_ne_none] at this
    exact this ((dictLookup_internal_key_eq_none_iff _ _).mpr hnone)

theorem missing_key_failure_witness :
    ∃ k, get_pofile_with_english_msgids "fr"
        [⟨"s1c", "Matériel Adapté"⟩] [⟨"s1a", "Adapted Material"⟩] =
        .error (.missingDefaultTranslation k) ∧
      (∃ e ∈ ([⟨"s1c", "Matériel Adapté"⟩] : List POEntry), e.msgid = k) ∧
      ∀ de ∈ ([⟨"s1a", "Adapted Material"⟩] : List POEntry), de.msgid ≠ k :=
  missing_key_failure "fr" [⟨"s1c", "Matériel Adapté"⟩]
    [⟨"s1a", "Adapted Material"⟩] (by decide)
    ⟨⟨"s1c", "Matériel Adapté"⟩, by simp, by intro de hde; simp at hde; simp [hde]⟩

/-- C4: reconciliation of a non-default-language catalog fails fast on the
first entry (in catalog order) whose key is missing from the default-language
dict, and a failing call returns no output catalog at all (the `Except` result
is an error, never a partially rewritten catalog). -/
theorem reconcile_fail_fast_atomic (language_code : String)
    (pofile english_pofile : List POEntry) (e : POEntry)
    (hlang : language_code ≠ DEFAULT_LANGUAGE_CODE)
    (hfind : pofile.find? (fun x =>
        (dictLookup (internal_key_to_english_message english_pofile)
          x.msgid).isNone) = some e) :
    get_pofile_with_english_msgids language_code pofile english_pofile =
        .error (.missingDefaultTranslation e.msgid) ∧
      ∀ out, get_pofile_with_english_msgids language_code pofile english_pofile ≠
        .ok out := by
  have herr : get_pofile_with_english_msgids language_code pofile english_pofile =
      .error (.missingDefaultTranslation e.msgid) := by
    rw [get_pofile_with_english_msgids]
    simp only [if_neg hlang]
    exact translatePass_error_of_find _ _ _ hfind
  exact ⟨herr, fun out h => by rw [herr] at h; cases h⟩

theorem reconcile_fail_fast_atomic_witness :
    get_pofile_with_english_msgids "fr"
        [⟨"s1c", "un"⟩, ⟨"s1d", "deux"⟩] [⟨"s1a", "Adapted Material"⟩] =
        .error (.missingDefaultTranslation "s1c") ∧
      ∀ out, get_pofile_with_english_msgids "fr"
        [⟨"s1c", "un"⟩, ⟨"s1d", "deux"⟩] [⟨"s1a", "Adapted Material"⟩] ≠ .ok out :=
  reconcile_fail_fast_atomic "fr" [⟨"s1c", "un"⟩, ⟨"s1d", "deux"⟩]
    [⟨"s1a", "Adapted Material"⟩] ⟨"s1c", "un"⟩ (by decide) (by rfl)

/-- C5: the reconciler, seen as a procedure over the stored catalogs, leaves
both source catalogs exactly as they were (it works on the deep copy taken on
line 219), and its returned value is the pure function of the two inputs. -/
theorem reconcile_no_mutation (language_code : String) (st : CatalogStore) :
    (reconcileProc language_code st).2.pofile = st.pofile ∧
      (reconcileProc language_code st).2.english_pofile = st.english_pofile ∧
      (reconcileProc language_code st).1 =
        get_pofile_with_english_msgids language_code st.pofile st.english_pofile :=
  ⟨rfl, rfl, rfl⟩

/-- C6: whenever reconciliation succeeds (either branch), the output has
exactly as many entries as the input, and the i-th output entry is derived
from the i-th input entry: either by the default-language rewrite (key := old
text, text := "") or by the key substitution (text unchanged, key looked up
from the old key). -/
theorem order_preservation (language_code : String)
    (pofile english_pofile out : List POEntry)
    (hok : get_pofile_with_english_msgids language_code pofile english_pofile =
      .ok out) :
    out.length = pofile.length ∧
      ∀ i (hi : i < pofile.length) (hio : i < out.length),
        ((out.get ⟨i, hio⟩).msgid = (pofile.get ⟨i, hi⟩).msgstr ∧
            (out.get ⟨i, hio⟩).msgstr = "") ∨
          (dictLookup (internal_key_to_english_message english_pofile)
              (pofile.get ⟨i, hi⟩).msgid = some ((out.get ⟨i, hio⟩).msgid) ∧
            (out.get ⟨i, hio⟩).msgstr = (pofile.get ⟨i, hi⟩).msgstr) := by
  by_cases h : language_code = DEFAULT_LANGUAGE_CODE
  · have hout : out = defaultPass pofile := by
      have := hok
      simp [get_pofile_with_english_msgids, h] at this
      exact this.symm
    subst hout
    exact ⟨defaultPass_length pofile, fun i hi hio =>
      Or.inl (defaultPass_get pofile i hi hio)⟩
  · have htr : translatePass (internal_key_to_english_message english_pofile)
        pofile = .ok out := by
      rw [← hok, get_pofile_with_english_msgids]
      simp only [if_neg h]
    exact ⟨(translatePass_ok_spec _ _ _ htr).1, fun i hi hio =>
      Or.inr ((translatePass_ok_spec _ _ _ htr).2 i hi hio)⟩

theorem order_preservation_witness :
    ([⟨"Adapted Material", "Matériel Adapté"⟩] : List POEntry).length =
        ([⟨"s1a", "Matériel Adapté"⟩] : List POEntry).length ∧
      ∀ i (hi : i < ([⟨"s1a", "Matériel Adapté"⟩] : List POEntry).length)
        (hio : i < ([⟨"Adapted Material", "Matériel Adapté"⟩] : List POEntry).length),
        ((([⟨"Adapted Material", "Matériel Adapté"⟩] : List POEntry).get
              ⟨i, hio⟩).msgid =
              (([⟨"s1a", "Matériel Adapté"⟩] : List POEntry).get ⟨i, hi⟩).msgstr ∧
            (([⟨"Adapted Material", "Matériel Adapté"⟩] : List POEntry).get
              ⟨i, hio⟩).msgstr = "") ∨
          (dictLookup (internal_key_to_english_message [⟨"s1a", "Adapted Material"⟩])
              (([⟨"s1a", "Matériel Adapté"⟩] : List POEntry).get ⟨i, hi⟩).msgid =
              some ((([⟨"Adapted Material", "Matériel Adapté"⟩] : List POEntry).get
                ⟨i, hio⟩).msgid) ∧
            (([⟨"Adapted Material", "Matériel Adapté"⟩] : List POEntry).get
                ⟨i, hio⟩).msgstr =
              (([⟨"s1a", "Matériel Adapté"⟩] : List POEntry).get ⟨i, hi⟩).msgstr) :=
  order_preservation "fr" [⟨"s1a", "Matériel Adapté"⟩] [⟨"s1a", "Adapted Material"⟩]
    [⟨"Adapted Material", "Matériel Adapté"⟩] (by rfl)

/-- C7: reconciliation is deterministic: equal inputs (language code, target
catalog, default-language catalog) give equal results, output catalog and
error alike. -/
theorem reconcile_deterministic (l1 l2 : String) (c1 c2 d1 d2 : List POEntry)
    (hl : l1 = l2) (hc : c1 = c2) (hd : d1 = d2) :
    get_pofile_with_english_msgids l1 c1 d1 =
      get_pofile_with_english_msgids l2 c2 d2 := by
  rw [hl, hc, hd]

theorem reconcile_deterministic_witness :
    get_pofile_with_english_msgids "fr" [⟨"s1a", "x"⟩] [⟨"s1a", "y"⟩] =
      get_pofile_with_english_msgids "fr" [⟨"s1a", "x"⟩] [⟨"s1a", "y"⟩] :=
  reconcile_deterministic "fr" "fr" [⟨"s1a", "x"⟩] [⟨"s1a", "x"⟩]
    [⟨"s1a", "y"⟩] [⟨"s1a", "y"⟩] rfl rfl rfl

/-- C8: the spec's concrete example: with the English catalog
[("s1a", "Adapted Material"), ("s1b", "Copyright")], the French catalog
[("s1a", "Matériel Adapté"), ("s1b", "Droit d\x27auteur")] reconciles to
[("Adapted Material", "Matériel Adapté"), ("Copyright", "Droit d\x27auteur")],
and replacing the key "s1b" by "s1c" (absent from English) makes it fail
identifying "s1c". -/
theorem spec_example_reconcile :
    get_pofile_with_english_msgids "fr"
        [⟨"s1a", "Matériel Adapté"⟩, ⟨"s1b", "Droit d\x27auteur"⟩]
        [⟨"s1a", "Adapted Material"⟩, ⟨"s1b", "Copyright"⟩] =
      .ok [⟨"Adapted Material", "Matériel Adapté"⟩,
        ⟨"Copyright", "Droit d\x27auteur"⟩] ∧
    get_pofile_with_english_msgids "fr"
        [⟨"s1a", "Matériel Adapté"⟩, ⟨"s1c", "Droit d\x27auteur"⟩]
        [⟨"s1a", "Adapted Material"⟩, ⟨"s1b", "Copyright"⟩] =
      .error (.missingDefaultTranslation "s1c") :=
  ⟨rfl, rfl⟩

/-- C9: when the default-language catalog holds several entries with the same
key, the dict the code builds keeps the text of the last occurrence, so on a
successful non-default reconciliation every output key is the text of the
last occurrence in the default catalog of the corresponding input key. -/
theorem duplicate_default_keys_last_wins (language_code : String)
    (pofile english_pofile out : List POEntry)
    (hlang : language_code ≠ DEFAULT_LANGUAGE_CODE)
    (hok : get_pofile_with_english_msgids language_code pofile english_pofile =
      .ok out) :
    ∀ i (hi : i < pofile.length) (hio : i < out.length),
      ∃ de, english_pofile.reverse.find?
          (fun x => x.msgid = (pofile.get ⟨i, hi⟩).msgid) = some de ∧
        (out.get ⟨i, hio⟩).msgid = de.msgstr := by
  have htr : translatePass (internal_key_to_english_message english_pofile)
      pofile = .ok out := by
    rw [← hok, get_pofile_with_english_msgids]
    simp only [if_neg hlang]
  intro i hi hio
  have hspec := (translatePass_ok_spec _ _ _ htr).2 i hi hio
  have hlook := hspec.1
  rw [dictLookup_internal_key] at hlook
  rcases Option.map_eq_some'.mp hlook with ⟨de, hde, hmsg⟩
  exact ⟨de, hde, hmsg.symm⟩

theorem duplicate_default_keys_last_wins_witness :
    ∃ de, ([⟨"s1a", "First"⟩, ⟨"s1a", "Last"⟩] : List POEntry).reverse.find?
        (fun x => x.msgid =
          (([⟨"s1a", "x"⟩] : List POEntry).get ⟨0, by decide⟩).msgid) = some de ∧
      (([⟨"Last", "x"⟩] : List POEntry).get ⟨0, by decide⟩).msgid = de.msgstr :=
  duplicate_default_keys_last_wins "fr" [⟨"s1a", "x"⟩]
    [⟨"s1a", "First"⟩, ⟨"s1a", "Last"⟩] [⟨"Last", "x"⟩] (by decide) (by rfl)
    0 (by decide) (by decide)

/-! ### The method `LegalCode.branch_name` (models.py lines 54-72)

The method reads three fields of the related `License` row plus the legal
code's own `language_code`.  The string operations it applies are modelled at
the character level: Python's `str.startswith(p)` is `p` being a prefix of the
character sequence, `str.replace(old, new)` for one-character `old`/`new` is a
character map, `str.replace(old, "")` for one-character `old` deletes every
occurrence, and `str.lower()` acts as `Char.toLower` (its action on the ASCII
range; the fields involved are ASCII identifiers, and on the ASCII range
Python's `lower` and `Char.toLower` agree). -/

/-- The three `License` columns read by `branch_name` (models.py lines
276-284). -/
structure License where
  license_code : String
  version : String
  jurisdiction_code : String
deriving DecidableEq, Repr

/-- The `LegalCode` columns read by `branch_name`: the related license and the
language code (models.py lines 31-37). -/
structure LegalCode where
  license : License
  language_code : String
deriving DecidableEq, Repr

/-- Python `s.startswith(pre)`: `pre` is a prefix of `s`, character by
character. -/
def pyStartsWith (s pre : String) : Bool :=
  pre.data.isPrefixOf s.data

/-- Python `s.replace(old, new)` for one-character `old` and `new`: every
occurrence of `old` becomes `new`. -/
def pyReplaceChar (s : List Char) (old new : Char) : List Char :=
  s.map (fun c => if c = old then new else c)

/-- Python `s.replace(old, "")` for a one-character `old`: every occurrence of
`old` is deleted. -/
def pyRemoveChar (s : List Char) (old : Char) : List Char :=
  s.filter (fun c => c ≠ old)

/-- Python `s.lower()` on the ASCII range: `Char.toLower` on each character. -/
def pyLower (s : List Char) : List Char :=
  s.map Char.toLower

/-- The method `LegalCode.branch_name` (models.py lines 54-72): join the parts with
hyphens ("cc4" for the `by*` 4.0 licenses, otherwise license code and version;
then the language code; then the jurisdiction code if non-empty, Python
truthiness of a string being non-emptiness), then `_`→`-`, drop `.`, and
lowercase. -/
def branch_name (self : LegalCode) : String :=
  let license := self.license
  let parts : List String :=
    (if pyStartsWith license.license_code "by" ∧ license.version = "4.0" then
      ["cc4"]
    else
      [license.license_code, license.version]) ++
    [self.language_code] ++
    (if license.jurisdiction_code ≠ "" then [license.jurisdiction_code] else [])
  String.mk (pyLower (pyRemoveChar
    (pyReplaceChar (String.intercalate "-" parts).data '_' '-') '.'))

theorem toNat_ofNat_of_valid (n : Nat) (h : n.isValidChar) :
    (Char.ofNat n).toNat = n := by
  rw [Char.ofNat, dif_pos h]
  simp [Char.ofNatAux, Char.toNat, UInt32.toNat]

theorem toLower_not_isUpper (c : Char) : ¬ (Char.toLower c).isUpper := by
  intro h
  rw [Char.isUpper, Bool.and_eq_true, decide_eq_true_iff, decide_eq_true_iff] at h
  obtain ⟨h1, h2⟩ := h
  have hle : ∀ a b : UInt32, a ≤ b ↔ a.toNat ≤ b.toNat := by
    intro a b
    rw [UInt32.le_def, UInt32.toNat, UInt32.toNat]
    exact BitVec.le_def
  have h1' : 65 ≤ (Char.toLower c).toNat := by
    have := (hle 65 (Char.toLower c).val).mp h1
    simpa [Char.toNat] using this
  have h2' : (Char.toLower c).toNat ≤ 90 := by
    have := (hle (Char.toLower c).val 90).mp h2
    simpa [Char.toNat] using this
  rw [Char.toLower] at h1' h2'
  by_cases hc : c.toNat ≥ 65 ∧ c.toNat ≤ 90
  · rw [if_pos hc] at h1' h2'
    rw [toNat_ofNat_of_valid _ (Or.inl (by omega))] at h1' h2'
    omega
  · rw [if_neg hc] at h1' h2'
    exact hc ⟨h1', h2'⟩

theorem toLower_ne_of_ne (d x : Char) (hx : x.toNat < 97 ∨ 122 < x.toNat)
    (hd : d ≠ x) : Char.toLower d ≠ x := by
  rw [Char.toLower]
  by_cases hc : d.toNat ≥ 65 ∧ d.toNat ≤ 90
  · rw [if_pos hc]
    intro he
    have hv := toNat_ofNat_of_valid (d.toNat + 32) (Or.inl (by omega))
    rw [he] at hv
    omega
  · rw [if_neg hc]
    exact hd

/-- C10: `branch_name` is the lowercased, hyphen-joined concatenation of its
parts ("cc4" when the license code starts with "by" and the version is "4.0",
otherwise license code and version; then language code; then the jurisdiction
code when non-empty), with underscores turned into hyphens and periods
removed — and hence the result contains no underscore, no period and no
(ASCII) uppercase letter. -/
theorem branch_name_dns_safe (lc : LegalCode) :
    branch_name lc = String.mk (pyLower (pyRemoveChar (pyReplaceChar
        (String.intercalate "-"
          ((if pyStartsWith lc.license.license_code "by" ∧
              lc.license.version = "4.0" then
            ["cc4"]
          else
            [lc.license.license_code, lc.license.version]) ++
          [lc.language_code] ++
          (if lc.license.jurisdiction_code ≠ "" then
            [lc.license.jurisdiction_code]
          else []))).data '_' '-') '.')) ∧
    ∀ c ∈ (branch_name lc).data, c ≠ '_' ∧ c ≠ '.' ∧ ¬ c.isUpper := by
  refine ⟨rfl, ?_⟩
  intro c hc
  rcases List.mem_map.mp hc with ⟨d, hd, rfl⟩
  have hd1 := List.mem_filter.mp hd
  have hdot : d ≠ '.' := by simpa using hd1.2
  have hund : d ≠ '_' := by
    rcases List.mem_map.mp hd1.1 with ⟨e, he, rfl⟩
    by_cases h : e = '_' <;> simp [h]
  exact ⟨toLower_ne_of_ne d '_' (by decide) hund,
    toLower_ne_of_ne d '.' (by decide) hdot,
    toLower_not_isUpper d⟩

theorem branch_name_dns_safe_witness :
    branch_name ⟨⟨"by-nc-sa", "4.0", "de_at"⟩, "EN.x"⟩ = "cc4-enx-de-at" ∧
    '_' ∉ (branch_name ⟨⟨"by-nc-sa", "4.0", "de_at"⟩, "EN.x"⟩).data ∧
    '.' ∉ (branch_name ⟨⟨"by-nc-sa", "4.0", "de_at"⟩, "EN.x"⟩).data ∧
    'E' ∉ (branch_name ⟨⟨"by-nc-sa", "4.0", "de_at"⟩, "EN.x"⟩).data := by
  refine ⟨by decide, ?_, ?_, ?_⟩
  · intro h
    exact ((branch_name_dns_safe ⟨⟨"by-nc-sa", "4.0", "de_at"⟩, "EN.x"⟩).2 '_' h).1 rfl
  · intro h
    exact ((branch_name_dns_safe ⟨⟨"by-nc-sa", "4.0", "de_at"⟩, "EN.x"⟩).2 '.' h).2.1 rfl
  · intro h
    exact ((branch_name_dns_safe ⟨⟨"by-nc-sa", "4.0", "de_at"⟩, "EN.x"⟩).2 'E' h).2.2
      (by decide)

end CcLicenses
